import Mathlib

/-!
Verification of the metadata specification normalizer and merge engine of
datalad/metadata/metadata.py: the helpers _parse_argspec and _get_key, the
tag-merging block of Metadata.__call__ (lines 190-203) and its mutation
guard (line 263). The Python data is embedded shallowly: the dynamic values
the parser inspects become the inductive type PyVal, dictionaries become
insertion-ordered association lists, and raised exceptions become the error
side of Except.
-/

set_option linter.unusedVariables false

/-- Python values, as far as the metadata argument parsing observes them:
strings, integers, None, lists, tuples and string-keyed dictionaries. A
dictionary preserves insertion order and is modelled as an association
list; dictionary assignment is setItem below. -/
inductive PyVal : Type where
  | str (s : String)
  | int (n : Int)
  | none
  | list (xs : List PyVal)
  | tuple (xs : List PyVal)
  | dict (kvs : List (String × PyVal))

/-- Python truthiness, bool(v), for the embedded values: empty strings,
zero, None and empty containers are falsy, everything else is truthy. -/
def truthy : PyVal → Bool
  | .str s => s != ""
  | .int n => n != 0
  | .none => false
  | .list xs => !xs.isEmpty
  | .tuple xs => !xs.isEmpty
  | .dict kvs => !kvs.isEmpty

/-- A value is shaped like a Python dict (a mapping). -/
def PyVal.isMappingShape : PyVal → Bool
  | .dict _ => true
  | _ => false

/-- A value is shaped like one of the sequences the top-level isinstance
dispatch of _parse_argspec accepts (list or tuple). -/
def PyVal.isSequenceShape : PyVal → Bool
  | .list _ => true
  | .tuple _ => true
  | _ => false

/-- A value is a Python list; the per-element isinstance test of
_parse_argspec checks exactly this (tuples and strings are bare scalars
there). -/
def PyVal.isListShape : PyVal → Bool
  | .list _ => true
  | _ => false

/-- A Python dict with string keys, as an association list in insertion
order. -/
abbrev Mapping := List (String × PyVal)

/-- Python d.get(k): the value stored under the first matching key. -/
def dictGet (m : Mapping) (key : String) : Option PyVal :=
  match m with
  | [] => Option.none
  | (k, v) :: rest => if k = key then some v else dictGet rest key

/-- Python d[k] = v: replace the value in place when the key exists,
otherwise append the new entry at the end. -/
def setItem (m : Mapping) (key : String) (v : PyVal) : Mapping :=
  match m with
  | [] => [(key, v)]
  | (k, w) :: rest => if k = key then (k, v) :: rest else (k, w) :: setItem rest key v

/-- The Python exceptions the embedded code can raise. -/
inductive PyErr : Type where
  | valueError (msg : String)
  | typeError
  | attributeError

/-- The pattern of the module-level compiled regex valid_key. -/
def valid_key : String := "^[0-9a-z._-]+$"

/-- Membership of one character in the class [0-9a-z._-]. -/
def validKeyChar (c : Char) : Bool :=
  (('0' ≤ c) && (c ≤ '9')) || (('a' ≤ c) && (c ≤ 'z')) || c == '.' || c == '_' || c == '-'

/-- Full match of valid_key against a string: one or more characters of
the class [0-9a-z._-]. -/
def validKeyMatch (s : String) : Bool :=
  !s.data.isEmpty && s.data.all validKeyChar

/-- Python str.lower, restricted to its ASCII action: every key the
pattern can accept is ASCII, and on ASCII input Python lower-casing is
exactly the per-character map. -/
def pyLower (s : String) : String :=
  ⟨s.data.map Char.toLower⟩

/-- Embeds _get_key of metadata.py: lower-case the key, then validate it
against valid_key; on failure raise ValueError with a message carrying
the offending (lowered) key and the pattern. -/
def _get_key (k : String) : Except PyErr String :=
  let low := pyLower k
  if validKeyMatch low then .ok low
  else .error (.valueError ("invalid metadata key \"" ++ low ++ "\", must match pattern " ++ valid_key))

/-- The call _get_key(k) on a general Python value: k.lower() raises
AttributeError unless k is a string, before any validation happens. -/
def _get_key_py : PyVal → Except PyErr String
  | .str s => _get_key s
  | _ => .error .attributeError

/-- One loop iteration of _parse_argspec for a sequence-shaped argument
(the elif isinstance(k, list) chain of metadata.py lines 69-79): a
one-element list contributes its sole element as a tag, a longer list is
a validated key with the remaining elements as values, an empty list is
an error, and any non-list element is itself a bare tag. -/
def stepSeqElem (acc : List PyVal × Mapping) (e : PyVal) : Except PyErr (List PyVal × Mapping) :=
  match e with
  | .list [] => .error (.valueError "invalid metadata specification, something weird")
  | .list [x] => .ok (acc.1 ++ [x], acc.2)
  | .list (x :: y :: rest) =>
    match _get_key_py x with
    | .ok key => .ok (acc.1, setItem acc.2 key (.list (y :: rest)))
    | .error err => .error err
  | _ => .ok (acc.1 ++ [e], acc.2)

/-- One loop iteration of _parse_argspec for a dict-shaped argument
(metadata.py lines 62-68): a truthy value is stored under the validated
key, a falsy value turns the key itself into a bare tag, unvalidated. -/
def stepDictItem (acc : List PyVal × Mapping) (kv : String × PyVal) : Except PyErr (List PyVal × Mapping) :=
  if truthy kv.2 then
    match _get_key kv.1 with
    | .ok key => .ok (acc.1, setItem acc.2 key kv.2)
    | .error err => .error err
  else .ok (acc.1 ++ [PyVal.str kv.1], acc.2)

/-- The loop of _parse_argspec over the elements of a sequence-shaped
argument. -/
def seqLoop (acc : List PyVal × Mapping) : List PyVal → Except PyErr (List PyVal × Mapping)
  | [] => .ok acc
  | e :: rest =>
    match stepSeqElem acc e with
    | .ok acc2 => seqLoop acc2 rest
    | .error err => .error err

/-- The loop of _parse_argspec over the items of a dict-shaped argument. -/
def dictLoop (acc : List PyVal × Mapping) : List (String × PyVal) → Except PyErr (List PyVal × Mapping)
  | [] => .ok acc
  | kv :: rest =>
    match stepDictItem acc kv with
    | .ok acc2 => dictLoop acc2 rest
    | .error err => .error err

/-- Embeds _parse_argspec of metadata.py: the falsy early return, the
isinstance dispatch (dict, list, tuple), and the classification loop
over items or elements. -/
def _parse_argspec (args : PyVal) : Except PyErr (List PyVal × Mapping) :=
  if !truthy args then .ok ([], [])
  else match args with
    | .dict kvs => dictLoop ([], []) kvs
    | .list es => seqLoop ([], []) es
    | .tuple es => seqLoop ([], []) es
    | _ => .error (.valueError "invalid metadata specification, must be a dict or sequence")

/-- Embeds one tag-merge block of Metadata.__call__ (metadata.py lines
195-197 and the analogous blocks for add and init): compute
mapping.get("tag", []) + tags and, when the result is truthy, assign it
to mapping["tag"]. Python raises TypeError when a present "tag" value is
not a list, because list concatenation is undefined on it. -/
def reconcileTags (tags : List PyVal) (m : Mapping) : Except PyErr Mapping :=
  match dictGet m "tag" with
  | Option.none =>
    if tags.isEmpty then .ok m else .ok (setItem m "tag" (.list tags))
  | some (.list xs) =>
    if (xs ++ tags).isEmpty then .ok m else .ok (setItem m "tag" (.list (xs ++ tags)))
  | some _ => .error .typeError

/-- The per-class data Metadata.__call__ computes before calling the
store: the four canonical mappings plus the purge list (the bare tags of
the reset class, which are handed to set_metadata separately). -/
structure PreparedSpec : Type where
  remove : Mapping
  reset : Mapping
  add : Mapping
  init : Mapping
  purge : List PyVal

/-- Embeds metadata.py lines 190-203 of Metadata.__call__: normalize each
of the four raw arguments, then merge bare tags into the remove, add and
init mappings; the bare tags of reset become the purge list and the reset
mapping is passed through unchanged. -/
def metadataPrepare (removeArg resetArg addArg initArg : PyVal) : Except PyErr PreparedSpec :=
  match _parse_argspec removeArg with
  | .error e => .error e
  | .ok (untag, removeMap) =>
    match _parse_argspec resetArg with
    | .error e => .error e
    | .ok (purge, resetMap) =>
      match _parse_argspec addArg with
      | .error e => .error e
      | .ok (tagAdd, addMap) =>
        match _parse_argspec initArg with
        | .error e => .error e
        | .ok (tagInit, initMap) =>
          match reconcileTags untag removeMap with
          | .error e => .error e
          | .ok removeMerged =>
            match reconcileTags tagAdd addMap with
            | .error e => .error e
            | .ok addMerged =>
              match reconcileTags tagInit initMap with
              | .error e => .error e
              | .ok initMerged => .ok ⟨removeMerged, resetMap, addMerged, initMerged, purge⟩

/-- Normalization followed by the tag merge, for a single operation
class in isolation. -/
def classReconciled (arg : PyVal) : Except PyErr Mapping :=
  match _parse_argspec arg with
  | .error e => .error e
  | .ok (tags, m) => reconcileTags tags m

/-- Embeds the mutation guard of Metadata.__call__ (metadata.py line
263): if reset or purge or add or init or remove, the store mutator
set_metadata is invoked, otherwise only the query path runs. -/
def mutationRequested (p : PreparedSpec) : Bool :=
  !p.reset.isEmpty || !p.purge.isEmpty || !p.add.isEmpty || !p.init.isEmpty || !p.remove.isEmpty

/-- The pre-existing tag values of a mapping: the list stored under
"tag", or [] when the key is absent; meaningful when the entry, if
present, holds a list. -/
def tagExisting (m : Mapping) : List PyVal :=
  match dictGet m "tag" with
  | some (.list xs) => xs
  | _ => []

/-- The entry stored under "tag", when present, is a list. -/
def tagEntryIsList (m : Mapping) : Bool :=
  match dictGet m "tag" with
  | Option.none => true
  | some (.list _) => true
  | some _ => false

/-- Every value stored in the mapping is truthy. -/
def allValuesTruthy (m : Mapping) : Bool :=
  m.all fun kv => truthy kv.2

/-! Helper lemmas about the dictionary model and the loops. -/

theorem mem_setItem {m : Mapping} {key : String} {v : PyVal} {p : String × PyVal}
    (h : p ∈ setItem m key v) : p = (key, v) ∨ p ∈ m := by
  induction m with
  | nil =>
    simp [setItem] at h
    exact Or.inl h
  | cons hd tl ih =>
    obtain ⟨k, w⟩ := hd
    by_cases hk : k = key
    · subst hk
      simp [setItem] at h
      rcases h with h | h
      · exact Or.inl (by simp [h])
      · exact Or.inr (List.mem_cons_of_mem _ h)
    · simp [setItem, hk] at h
      rcases h with h | h
      · exact Or.inr (by simp [h])
      · rcases ih h with h2 | h2
        · exact Or.inl h2
        · exact Or.inr (List.mem_cons_of_mem _ h2)

theorem dictGet_setItem (m : Mapping) (key q : String) (v : PyVal) :
    dictGet (setItem m key v) q = if key = q then some v else dictGet m q := by
  induction m with
  | nil =>
    by_cases h : key = q <;> simp [setItem, dictGet, h]
  | cons hd tl ih =>
    obtain ⟨k, w⟩ := hd
    by_cases hk : k = key
    · subst hk
      by_cases hq : k = q <;> simp [setItem, dictGet, hq]
    · by_cases hq : k = q
      · subst hq
        have hkq : ¬ key = k := fun hc => hk hc.symm
        simp [setItem, dictGet, hk, hkq]
      · simp [setItem, dictGet, hk, hq, ih]

theorem allValuesTruthy_setItem {m : Mapping} {key : String} {v : PyVal}
    (hm : allValuesTruthy m = true) (hv : truthy v = true) :
    allValuesTruthy (setItem m key v) = true := by
  simp only [allValuesTruthy, List.all_eq_true] at *
  intro kv hkv
  rcases mem_setItem hkv with h | h
  · simp [h, hv]
  · exact hm kv h

theorem stepSeqElem_truthy {acc acc2 : List PyVal × Mapping} {e : PyVal}
    (h : stepSeqElem acc e = .ok acc2) (hm : allValuesTruthy acc.2 = true) :
    allValuesTruthy acc2.2 = true := by
  cases e with
  | list xs =>
    match xs with
    | [] => simp [stepSeqElem] at h
    | [x] =>
      simp [stepSeqElem] at h
      rw [← h]
      exact hm
    | x :: y :: rest =>
      cases hg : _get_key_py x with
      | error err => simp [stepSeqElem, hg] at h
      | ok key =>
        simp [stepSeqElem, hg] at h
        rw [← h]
        exact allValuesTruthy_setItem hm (by simp [truthy])
  | str s => simp [stepSeqElem] at h; rw [← h]; exact hm
  | int n => simp [stepSeqElem] at h; rw [← h]; exact hm
  | none => simp [stepSeqElem] at h; rw [← h]; exact hm
  | tuple xs => simp [stepSeqElem] at h; rw [← h]; exact hm
  | dict kvs => simp [stepSeqElem] at h; rw [← h]; exact hm

theorem seqLoop_truthy (es : List PyVal) :
    ∀ acc acc2 : List PyVal × Mapping, allValuesTruthy acc.2 = true →
      seqLoop acc es = .ok acc2 → allValuesTruthy acc2.2 = true := by
  induction es with
  | nil =>
    intro acc acc2 hm h
    simp [seqLoop] at h
    rw [← h]
    exact hm
  | cons e rest ih =>
    intro acc acc2 hm h
    cases hs : stepSeqElem acc e with
    | error err => simp [seqLoop, hs] at h
    | ok acc1 =>
      simp only [seqLoop, hs] at h
      exact ih acc1 acc2 (stepSeqElem_truthy hs hm) h

theorem stepDictItem_truthy {acc acc2 : List PyVal × Mapping} {kv : String × PyVal}
    (h : stepDictItem acc kv = .ok acc2) (hm : allValuesTruthy acc.2 = true) :
    allValuesTruthy acc2.2 = true := by
  by_cases ht : truthy kv.2 = true
  · cases hg : _get_key kv.1 with
    | error err => simp [stepDictItem, ht, hg] at h
    | ok key =>
      simp [stepDictItem, ht, hg] at h
      rw [← h]
      exact allValuesTruthy_setItem hm ht
  · simp [stepDictItem, ht] at h
    rw [← h]
    exact hm

theorem dictLoop_truthy (kvs : List (String × PyVal)) :
    ∀ acc acc2 : List PyVal × Mapping, allValuesTruthy acc.2 = true →
      dictLoop acc kvs = .ok acc2 → allValuesTruthy acc2.2 = true := by
  induction kvs with
  | nil =>
    intro acc acc2 hm h
    simp [dictLoop] at h
    rw [← h]
    exact hm
  | cons kv rest ih =>
    intro acc acc2 hm h
    cases hs : stepDictItem acc kv with
    | error err => simp [dictLoop, hs] at h
    | ok acc1 =>
      simp only [dictLoop, hs] at h
      exact ih acc1 acc2 (stepDictItem_truthy hs hm) h

theorem reconcileTags_truthy {tags : List PyVal} {m m2 : Mapping}
    (h : reconcileTags tags m = .ok m2) (hm : allValuesTruthy m = true) :
    allValuesTruthy m2 = true := by
  cases hg : dictGet m "tag" with
  | none =>
    by_cases he : tags.isEmpty = true
    · simp [reconcileTags, hg, he] at h
      rw [← h]
      exact hm
    · simp [reconcileTags, hg, he] at h
      rw [← h]
      exact allValuesTruthy_setItem hm (by simp [truthy, he])
  | some v =>
    cases v with
    | list xs =>
      by_cases he : (xs ++ tags).isEmpty = true
      · simp [reconcileTags, hg, he] at h
        rw [← h]
        exact hm
      · simp [reconcileTags, hg, he] at h
        rw [← h]
        exact allValuesTruthy_setItem hm (by simp [truthy, he])
    | str s => simp [reconcileTags, hg] at h
    | int n => simp [reconcileTags, hg] at h
    | none => simp [reconcileTags, hg] at h
    | tuple xs => simp [reconcileTags, hg] at h
    | dict kvs => simp [reconcileTags, hg] at h

theorem metadataPrepare_decomp {rm rs ad ini : PyVal} {out : PreparedSpec}
    (h : metadataPrepare rm rs ad ini = .ok out) :
    classReconciled rm = .ok out.remove ∧
    _parse_argspec rs = .ok (out.purge, out.reset) ∧
    classReconciled ad = .ok out.add ∧
    classReconciled ini = .ok out.init := by
  cases h1 : _parse_argspec rm with
  | error e => simp [metadataPrepare, h1] at h
  | ok pr1 =>
    obtain ⟨untag, removeMap⟩ := pr1
    cases h2 : _parse_argspec rs with
    | error e => simp [metadataPrepare, h1, h2] at h
    | ok pr2 =>
      obtain ⟨purge, resetMap⟩ := pr2
      cases h3 : _parse_argspec ad with
      | error e => simp [metadataPrepare, h1, h2, h3] at h
      | ok pr3 =>
        obtain ⟨tagAdd, addMap⟩ := pr3
        cases h4 : _parse_argspec ini with
        | error e => simp [metadataPrepare, h1, h2, h3, h4] at h
        | ok pr4 =>
          obtain ⟨tagInit, initMap⟩ := pr4
          cases h5 : reconcileTags untag removeMap with
          | error e => simp [metadataPrepare, h1, h2, h3, h4, h5] at h
          | ok removeMerged =>
            cases h6 : reconcileTags tagAdd addMap with
            | error e => simp [metadataPrepare, h1, h2, h3, h4, h5, h6] at h
            | ok addMerged =>
              cases h7 : reconcileTags tagInit initMap with
              | error e => simp [metadataPrepare, h1, h2, h3, h4, h5, h6, h7] at h
              | ok initMerged =>
                simp only [metadataPrepare, h1, h2, h3, h4, h5, h6, h7] at h
                have hout : (⟨removeMerged, resetMap, addMerged, initMerged, purge⟩ : PreparedSpec) = out := by
                  exact Except.ok.inj h
                rw [← hout]
                refine ⟨?_, ?_, ?_, ?_⟩ <;> simp [classReconciled, h1, h2, h3, h4, h5, h6, h7]

/-! Claim theorems. -/

/-- C3: for a sequence-shaped raw argument, _parse_argspec runs seqLoop
over the elements, and each element e is classified as follows: a list of
length 1 appends its sole element to tags; a list of length greater than
1 stores the remaining elements, as a list, under the validated first
element; an empty list fails with the InvalidSpecification message
"something weird"; a non-list element is appended to tags as a bare
tag. -/
theorem seq_element_classification :
    (∀ acc : List PyVal × Mapping, ∀ x : PyVal,
      stepSeqElem acc (.list [x]) = .ok (acc.1 ++ [x], acc.2)) ∧
    (∀ acc : List PyVal × Mapping, ∀ x y : PyVal, ∀ rest : List PyVal,
      stepSeqElem acc (.list (x :: y :: rest)) =
        match _get_key_py x with
        | .ok key => .ok (acc.1, setItem acc.2 key (.list (y :: rest)))
        | .error err => .error err) ∧
    (∀ acc : List PyVal × Mapping,
      stepSeqElem acc (.list []) =
        .error (.valueError "invalid metadata specification, something weird")) ∧
    (∀ acc : List PyVal × Mapping, ∀ e : PyVal, e.isListShape = false →
      stepSeqElem acc e = .ok (acc.1 ++ [e], acc.2)) ∧
    (∀ es : List PyVal, _parse_argspec (.list es) = seqLoop ([], []) es) ∧
    (∀ es : List PyVal, _parse_argspec (.tuple es) = seqLoop ([], []) es) := by
  refine ⟨fun acc x => rfl, fun acc x y rest => rfl, fun acc => rfl, ?_, ?_, ?_⟩
  · intro acc e he
    cases e with
    | list xs => simp [PyVal.isListShape] at he
    | str s => rfl
    | int n => rfl
    | none => rfl
    | tuple xs => rfl
    | dict kvs => rfl
  · intro es
    cases es with
    | nil => rfl
    | cons e rest => rfl
  · intro es
    cases es with
    | nil => rfl
    | cons e rest => rfl

/-- C3 witness: the classification at concrete elements, obtained from
the classification theorem; the bare-scalar case applies the theorem with
its hypothesis discharged at the string element "urgent". -/
theorem seq_element_classification_witness :
    PyVal.isListShape (PyVal.str "urgent") = false ∧
    stepSeqElem ([], []) (PyVal.str "urgent") = .ok ([PyVal.str "urgent"], []) ∧
    stepSeqElem ([], []) (PyVal.list [PyVal.str "urgent"]) = .ok ([PyVal.str "urgent"], []) ∧
    stepSeqElem ([], []) (PyVal.list [PyVal.str "Color", PyVal.str "red", PyVal.str "blue"]) =
      .ok ([], [("color", PyVal.list [PyVal.str "red", PyVal.str "blue"])]) ∧
    stepSeqElem ([], []) (PyVal.list []) =
      .error (.valueError "invalid metadata specification, something weird") := by
  refine ⟨rfl, ?_, ?_, ?_, ?_⟩
  · exact seq_element_classification.2.2.2.1 ([], []) (PyVal.str "urgent") rfl
  · exact seq_element_classification.1 ([], []) (PyVal.str "urgent")
  · exact seq_element_classification.2.1 ([], []) (PyVal.str "Color") (PyVal.str "red") [PyVal.str "blue"]
  · exact seq_element_classification.2.2.1 ([], [])

/-- C4: for a dict-shaped raw argument, _parse_argspec runs dictLoop over
the items, and each item (k, v) is processed as follows: a truthy v is
stored, exactly as supplied, under the validated key; a falsy v turns the
key k itself into a bare tag without any key validation. In particular
the dict with "color" mapped to "" and "mood" mapped to "happy"
normalizes to the tag list ["color"] and the mapping with only
"mood". -/
theorem dict_item_classification :
    (∀ acc : List PyVal × Mapping, ∀ k : String, ∀ v : PyVal, truthy v = true →
      stepDictItem acc (k, v) =
        match _get_key k with
        | .ok key => .ok (acc.1, setItem acc.2 key v)
        | .error err => .error err) ∧
    (∀ acc : List PyVal × Mapping, ∀ k : String, ∀ v : PyVal, truthy v = false →
      stepDictItem acc (k, v) = .ok (acc.1 ++ [PyVal.str k], acc.2)) ∧
    (∀ kvs : List (String × PyVal), _parse_argspec (.dict kvs) = dictLoop ([], []) kvs) ∧
    _parse_argspec (.dict [("color", PyVal.str ""), ("mood", PyVal.str "happy")]) =
      .ok ([PyVal.str "color"], [("mood", PyVal.str "happy")]) := by
  refine ⟨?_, ?_, ?_, rfl⟩
  · intro acc k v hv
    simp [stepDictItem, hv]
  · intro acc k v hv
    simp [stepDictItem, hv]
  · intro kvs
    cases kvs with
    | nil => rfl
    | cons kv rest => rfl

/-- C4 witness: the item classification theorem applied at concrete
items; the falsy value makes the key a bare tag even when the key would
fail validation, and the truthy value is stored under the lowered
key. -/
theorem dict_item_classification_witness :
    truthy (PyVal.str "happy") = true ∧
    stepDictItem ([], []) ("Mood", PyVal.str "happy") =
      .ok ([], [("mood", PyVal.str "happy")]) ∧
    truthy (PyVal.str "") = false ∧
    stepDictItem ([], []) ("Co Lor", PyVal.str "") = .ok ([PyVal.str "Co Lor"], []) := by
  refine ⟨rfl, ?_, rfl, ?_⟩
  · exact dict_item_classification.1 ([], []) "Mood" (PyVal.str "happy") rfl
  · exact dict_item_classification.2.1 ([], []) "Co Lor" (PyVal.str "") rfl

/-- C5 counterexample: the integer 0 is neither a mapping nor a sequence,
yet _parse_argspec returns ([], []) for it instead of failing with
InvalidSpecification, because the falsy early return of metadata.py line
53 fires before the isinstance dispatch. This refutes the claim that
every non-mapping non-sequence raw argument fails. -/
theorem argspec_falsy_scalar_not_error :
    _parse_argspec (PyVal.int 0) = .ok ([], []) ∧
    PyVal.isMappingShape (PyVal.int 0) = false ∧
    PyVal.isSequenceShape (PyVal.int 0) = false ∧
    _parse_argspec (PyVal.int 0) ≠
      .error (.valueError "invalid metadata specification, must be a dict or sequence") := by
  refine ⟨rfl, rfl, rfl, ?_⟩
  intro h
  cases h

/-- C5 amended: _parse_argspec returns ([], []) for every falsy raw
argument (None, an empty mapping or sequence, and any other falsy value
such as 0 or the empty string), and fails with the InvalidSpecification
message "must be a dict or sequence" for every truthy raw argument that
is neither a mapping nor a sequence; no other outcome is possible at the
top-level dispatch. -/
theorem argspec_top_dispatch (v : PyVal) :
    _parse_argspec PyVal.none = .ok ([], []) ∧
    _parse_argspec (PyVal.list []) = .ok ([], []) ∧
    (truthy v = false → _parse_argspec v = .ok ([], [])) ∧
    (truthy v = true → v.isMappingShape = false → v.isSequenceShape = false →
      _parse_argspec v =
        .error (.valueError "invalid metadata specification, must be a dict or sequence")) := by
  refine ⟨rfl, rfl, ?_, ?_⟩
  · intro hv
    simp [_parse_argspec, hv]
  · intro hv hm hs
    cases v with
    | str s => simp [_parse_argspec, hv]
    | int n => simp [_parse_argspec, hv]
    | none => simp [truthy] at hv
    | list xs => simp [PyVal.isSequenceShape] at hs
    | tuple xs => simp [PyVal.isSequenceShape] at hs
    | dict kvs => simp [PyVal.isMappingShape] at hm

/-- C5 witness: the amended dispatch theorem applied at the falsy scalar
0 and at the truthy non-container string "x". -/
theorem argspec_top_dispatch_witness :
    _parse_argspec (PyVal.int 0) = .ok ([], []) ∧
    _parse_argspec (PyVal.str "x") =
      .error (.valueError "invalid metadata specification, must be a dict or sequence") := by
  constructor
  · exact (argspec_top_dispatch (PyVal.int 0)).2.2.1 rfl
  · exact (argspec_top_dispatch (PyVal.str "x")).2.2.2 rfl rfl rfl

/-- C6: _get_key lower-cases its input and succeeds, returning the
lowered string, exactly when the lowered string fully matches the
valid_key pattern (one or more characters among digits, lowercase
letters, dot, underscore and hyphen); any successful result is the
lowered input; and on a failing match it raises ValueError whose message
carries the offending lowered key and the allowed pattern. -/
theorem get_key_spec (s : String) :
    (_get_key s = .ok (pyLower s) ↔ validKeyMatch (pyLower s) = true) ∧
    (∀ r : String, _get_key s = .ok r → r = pyLower s) ∧
    (validKeyMatch (pyLower s) = false →
      _get_key s = .error (.valueError
        ("invalid metadata key \"" ++ pyLower s ++ "\", must match pattern " ++ valid_key))) := by
  by_cases h : validKeyMatch (pyLower s) = true
  · refine ⟨?_, ?_, ?_⟩
    · simp [_get_key, h]
    · intro r hr
      simp [_get_key, h] at hr
      exact hr.symm
    · intro hf
      rw [h] at hf
      cases hf
  · have hf : validKeyMatch (pyLower s) = false := by
      simpa using h
    refine ⟨?_, ?_, ?_⟩
    · simp [_get_key, hf]
    · intro r hr
      simp [_get_key, hf] at hr
    · intro _
      simp [_get_key, hf]

/-- C6 witness: the validator theorem applied at "Color", which succeeds
with the lowered key, and at "co lor", which fails with the full error
message containing the offending key and the pattern. -/
theorem get_key_spec_witness :
    _get_key "Color" = .ok "color" ∧
    _get_key "co lor" =
      .error (.valueError "invalid metadata key \"co lor\", must match pattern ^[0-9a-z._-]+$") := by
  constructor
  · exact (get_key_spec "Color").1.mpr rfl
  · exact (get_key_spec "co lor").2.2 rfl

/-- C2: for a (tags, mapping) pair produced by normalization whose "tag"
entry, when present, holds a list (the only shape on which the Python
list concatenation of the merge is defined), the tag merge assigns to
mapping["tag"] the pre-existing "tag" values (or [] when the key is
absent) followed by the bare tags, in that order, whenever that
concatenation is non-empty; and when tags is empty and "tag" was never
present the mapping is returned unchanged, so no "tag" key is added. -/
theorem reconcile_sets_tag_concatenation (raw : PyVal) (tags : List PyVal) (m : Mapping)
    (hp : _parse_argspec raw = .ok (tags, m))
    (hl : tagEntryIsList m = true) :
    (tagExisting m ++ tags ≠ [] →
      reconcileTags tags m = .ok (setItem m "tag" (.list (tagExisting m ++ tags)))) ∧
    (tags = [] → dictGet m "tag" = Option.none → reconcileTags tags m = .ok m) := by
  constructor
  · intro hne
    cases hg : dictGet m "tag" with
    | none =>
      have hte : tagExisting m = [] := by simp [tagExisting, hg]
      rw [hte] at hne ⊢
      have htags : tags.isEmpty = false := by
        simp at hne
        simp [hne]
      simp [reconcileTags, hg, htags]
    | some v =>
      cases v with
      | list xs =>
        have hte : tagExisting m = xs := by simp [tagExisting, hg]
        rw [hte] at hne ⊢
        have hxe : (xs ++ tags).isEmpty = false := by
          simpa using hne
        simp [reconcileTags, hg, hxe]
      | str s => simp [tagEntryIsList, hg] at hl
      | int n => simp [tagEntryIsList, hg] at hl
      | none => simp [tagEntryIsList, hg] at hl
      | tuple xs => simp [tagEntryIsList, hg] at hl
      | dict kvs => simp [tagEntryIsList, hg] at hl
  · intro htags hg
    simp [reconcileTags, hg, htags]

/-- C2 witness: on the pair produced by normalizing the list argument
with the explicit entry ["tag", "x"] and the bare tags ["a"] and ["b"],
the merge theorem yields the mapping whose "tag" entry is ["x", "a",
"b"], existing values first. -/
theorem reconcile_sets_tag_concatenation_witness :
    _parse_argspec (PyVal.list [PyVal.list [PyVal.str "tag", PyVal.str "x"],
        PyVal.list [PyVal.str "a"], PyVal.list [PyVal.str "b"]]) =
      .ok ([PyVal.str "a", PyVal.str "b"], [("tag", PyVal.list [PyVal.str "x"])]) ∧
    reconcileTags [PyVal.str "a", PyVal.str "b"] [("tag", PyVal.list [PyVal.str "x"])] =
      .ok [("tag", PyVal.list [PyVal.str "x", PyVal.str "a", PyVal.str "b"])] := by
  constructor
  · rfl
  · have h := (reconcile_sets_tag_concatenation
      (PyVal.list [PyVal.list [PyVal.str "tag", PyVal.str "x"],
        PyVal.list [PyVal.str "a"], PyVal.list [PyVal.str "b"]])
      [PyVal.str "a", PyVal.str "b"] [("tag", PyVal.list [PyVal.str "x"])]
      rfl rfl).1 (List.cons_ne_nil _ _)
    exact h

/-- C9: for every raw argument on which normalization succeeds, the
resulting canonical mapping carries only truthy values, and whenever the
tag merge also succeeds, the merged mapping again carries only truthy
values under every key. -/
theorem mapping_values_truthy (raw : PyVal) (tags : List PyVal) (m : Mapping)
    (hp : _parse_argspec raw = .ok (tags, m)) :
    allValuesTruthy m = true ∧
    ∀ m2 : Mapping, reconcileTags tags m = .ok m2 → allValuesTruthy m2 = true := by
  have hm : allValuesTruthy m = true := by
    by_cases ht : truthy raw = true
    · cases raw with
      | str s =>
        simp [_parse_argspec, ht] at hp
      | int n =>
        simp [_parse_argspec, ht] at hp
      | none => simp [truthy] at ht
      | list es =>
        simp only [_parse_argspec, ht, Bool.not_true, Bool.false_eq_true, if_false] at hp
        exact seqLoop_truthy es ([], []) (tags, m) rfl hp
      | tuple es =>
        simp only [_parse_argspec, ht, Bool.not_true, Bool.false_eq_true, if_false] at hp
        exact seqLoop_truthy es ([], []) (tags, m) rfl hp
      | dict kvs =>
        simp only [_parse_argspec, ht, Bool.not_true, Bool.false_eq_true, if_false] at hp
        exact dictLoop_truthy kvs ([], []) (tags, m) rfl hp
    · have htf : truthy raw = false := by simpa using ht
      simp [_parse_argspec, htf] at hp
      rw [hp.2]
      rfl
  exact ⟨hm, fun m2 hr => reconcileTags_truthy hr hm⟩

/-- C9 witness: the invariant theorem applied to the normalization of a
dict argument with one falsy and one truthy value, and to the tag merge
of the result. -/
theorem mapping_values_truthy_witness :
    allValuesTruthy [("mood", PyVal.str "happy")] = true ∧
    allValuesTruthy [("mood", PyVal.str "happy"), ("tag", PyVal.list [PyVal.str "color"])] = true := by
  have h := mapping_values_truthy
    (PyVal.dict [("color", PyVal.str ""), ("mood", PyVal.str "happy")])
    [PyVal.str "color"] [("mood", PyVal.str "happy")] rfl
  exact ⟨h.1, h.2 [("mood", PyVal.str "happy"), ("tag", PyVal.list [PyVal.str "color"])] rfl⟩

/-- C10: the tag merge changes only the "tag" entry; for every pair
produced by normalization on which the merge succeeds, every key other
than "tag" is bound in the merged mapping exactly as it was in the
normalized mapping, present with the same value or equally absent. -/
theorem reconcile_frame (raw : PyVal) (tags : List PyVal) (m m2 : Mapping)
    (hp : _parse_argspec raw = .ok (tags, m))
    (hr : reconcileTags tags m = .ok m2) :
    ∀ k : String, k ≠ "tag" → dictGet m2 k = dictGet m k := by
  intro k hk
  have hk2 : ¬ ("tag" : String) = k := fun hc => hk hc.symm
  cases hg : dictGet m "tag" with
  | none =>
    by_cases he : tags.isEmpty = true
    · simp [reconcileTags, hg, he] at hr
      rw [← hr]
    · simp [reconcileTags, hg, he] at hr
      rw [← hr, dictGet_setItem, if_neg hk2]
  | some v =>
    cases v with
    | list xs =>
      by_cases he : (xs ++ tags).isEmpty = true
      · simp [reconcileTags, hg, he] at hr
        rw [← hr]
      · simp [reconcileTags, hg, he] at hr
        rw [← hr, dictGet_setItem, if_neg hk2]
    | str s => simp [reconcileTags, hg] at hr
    | int n => simp [reconcileTags, hg] at hr
    | none => simp [reconcileTags, hg] at hr
    | tuple xs => simp [reconcileTags, hg] at hr
    | dict kvs => simp [reconcileTags, hg] at hr

/-- C10 witness: the frame theorem applied to the normalized dict with a
"mood" entry and the bare tag "color": after the merge, "mood" is bound
exactly as before. -/
theorem reconcile_frame_witness :
    dictGet [("mood", PyVal.str "happy"), ("tag", PyVal.list [PyVal.str "color"])] "mood" =
      dictGet [("mood", PyVal.str "happy")] "mood" := by
  have h := reconcile_frame
    (PyVal.dict [("color", PyVal.str ""), ("mood", PyVal.str "happy")])
    [PyVal.str "color"] [("mood", PyVal.str "happy")]
    [("mood", PyVal.str "happy"), ("tag", PyVal.list [PyVal.str "color"])] rfl rfl
  exact h "mood" (by decide)

/-- C1 counterexample: a reset argument consisting of the single bare tag
"urgent" normalizes to the tag list ["urgent"], yet the reset mapping
handed on by Metadata.__call__ is empty, with no "tag" entry at all: the
bare reset tags end up as the separate purge list, refuting the claim
that tag reconciliation merges every class, reset included, into its own
"tag" mapping entry. -/
theorem reset_bare_tags_stay_in_purge :
    _parse_argspec (PyVal.list [PyVal.list [PyVal.str "urgent"]]) =
      .ok ([PyVal.str "urgent"], []) ∧
    metadataPrepare PyVal.none (PyVal.list [PyVal.list [PyVal.str "urgent"]])
        PyVal.none PyVal.none =
      .ok ⟨[], [], [], [], [PyVal.str "urgent"]⟩ ∧
    dictGet [] "tag" = Option.none := ⟨rfl, rfl, rfl⟩

/-- C1 amended: tag reconciliation is applied independently to the
remove, add and init operation classes: for each of these three, the bare
tags produced by normalization are merged into that same class mapping
under the key "tag" before the mappings are handed to the store. The
reset class is the exception: its bare tags are not merged into the reset
mapping but carried separately as the purge list, and the reset mapping
is handed to the store exactly as normalization produced it. -/
theorem tag_merge_applied_per_class (rm rs ad ini : PyVal) (out : PreparedSpec)
    (h : metadataPrepare rm rs ad ini = .ok out) :
    classReconciled rm = .ok out.remove ∧
    classReconciled ad = .ok out.add ∧
    classReconciled ini = .ok out.init ∧
    _parse_argspec rs = .ok (out.purge, out.reset) := by
  have hd := metadataPrepare_decomp h
  exact ⟨hd.1, hd.2.2.1, hd.2.2.2, hd.2.1⟩

/-- C1 witness: the amended theorem applied to an invocation whose remove
argument is the bare tag "x": the remove mapping handed on is exactly the
normalize-then-merge result for that argument alone. -/
theorem tag_merge_applied_per_class_witness :
    metadataPrepare (PyVal.list [PyVal.str "x"]) PyVal.none PyVal.none PyVal.none =
      .ok ⟨[("tag", PyVal.list [PyVal.str "x"])], [], [], [], []⟩ ∧
    classReconciled (PyVal.list [PyVal.str "x"]) = .ok [("tag", PyVal.list [PyVal.str "x"])] := by
  refine ⟨rfl, ?_⟩
  have h := tag_merge_applied_per_class (PyVal.list [PyVal.str "x"])
    PyVal.none PyVal.none PyVal.none
    ⟨[("tag", PyVal.list [PyVal.str "x"])], [], [], [], []⟩ rfl
  exact h.1

/-- C7 counterexample: an invocation whose reset argument is the bare tag
"urgent" produces four empty canonical mappings, yet the mutation guard
of line 263 is true because the purge list is non-empty, so the store
set-operation is invoked; this refutes the claim that empty mappings
alone imply the query-only path. -/
theorem purge_triggers_mutation_with_empty_mappings :
    metadataPrepare PyVal.none (PyVal.list [PyVal.list [PyVal.str "urgent"]])
        PyVal.none PyVal.none =
      .ok ⟨[], [], [], [], [PyVal.str "urgent"]⟩ ∧
    mutationRequested ⟨[], [], [], [], [PyVal.str "urgent"]⟩ = true := ⟨rfl, rfl⟩

/-- C7 amended: the orchestrator skips mutation, running only the query
path, exactly when all four canonical mappings and the purge list (the
bare tags of the reset class) are empty; a non-empty purge list alone
already triggers the store set-operation. -/
theorem mutation_guard_characterization (p : PreparedSpec) :
    mutationRequested p = false ↔
      (p.remove = [] ∧ p.reset = [] ∧ p.add = [] ∧ p.init = [] ∧ p.purge = []) := by
  obtain ⟨r, s, a, i, pu⟩ := p
  cases r <;> cases s <;> cases a <;> cases i <;> cases pu <;>
    simp [mutationRequested]

/-- C7 witness: the guard characterization applied at the fully empty
prepared specification, on which mutation is skipped. -/
theorem mutation_guard_characterization_witness :
    mutationRequested ⟨[], [], [], [], []⟩ = false :=
  (mutation_guard_characterization ⟨[], [], [], [], []⟩).mpr ⟨rfl, rfl, rfl, rfl, rfl⟩

/-- C8: cross-class isolation: on any two successful invocations, classes
given equal raw arguments receive equal canonical mappings, so each class
mapping (and, for reset, the purge list) is a function of that class raw
argument alone, and nothing supplied to one class can leak into the
mapping of another. -/
theorem cross_class_isolation (rm rs ad ini rm2 rs2 ad2 ini2 : PyVal)
    (out out2 : PreparedSpec)
    (h : metadataPrepare rm rs ad ini = .ok out)
    (h2 : metadataPrepare rm2 rs2 ad2 ini2 = .ok out2) :
    (rm = rm2 → out.remove = out2.remove) ∧
    (rs = rs2 → out.reset = out2.reset ∧ out.purge = out2.purge) ∧
    (ad = ad2 → out.add = out2.add) ∧
    (ini = ini2 → out.init = out2.init) := by
  have d := metadataPrepare_decomp h
  have d2 := metadataPrepare_decomp h2
  refine ⟨?_, ?_, ?_, ?_⟩
  · intro he
    rw [← he] at d2
    have := d.1.symm.trans d2.1
    exact Except.ok.inj this
  · intro he
    rw [← he] at d2
    have := d.2.1.symm.trans d2.2.1
    have hpair := Except.ok.inj this
    exact ⟨congrArg Prod.snd hpair, congrArg Prod.fst hpair⟩
  · intro he
    rw [← he] at d2
    have := d.2.2.1.symm.trans d2.2.2.1
    exact Except.ok.inj this
  · intro he
    rw [← he] at d2
    have := d.2.2.2.symm.trans d2.2.2.2
    exact Except.ok.inj this

/-- C8 witness: two invocations sharing the remove argument (the bare tag
"x") but differing in every other class produce identical remove
mappings, by the isolation theorem. -/
theorem cross_class_isolation_witness :
    (⟨[("tag", PyVal.list [PyVal.str "x"])], [], [], [], []⟩ : PreparedSpec).remove =
      (⟨[("tag", PyVal.list [PyVal.str "x"])], [("k", PyVal.list [PyVal.str "v"])],
        [], [], []⟩ : PreparedSpec).remove := by
  have h := cross_class_isolation
    (PyVal.list [PyVal.str "x"]) PyVal.none PyVal.none PyVal.none
    (PyVal.list [PyVal.str "x"]) (PyVal.list [PyVal.list [PyVal.str "k", PyVal.str "v"]])
    PyVal.none PyVal.none
    ⟨[("tag", PyVal.list [PyVal.str "x"])], [], [], [], []⟩
    ⟨[("tag", PyVal.list [PyVal.str "x"])], [("k", PyVal.list [PyVal.str "v"])], [], [], []⟩
    rfl rfl
  exact h.1 rfl
